import Mathlib

/-!
Verification of the two scripts of this repository against their
natural-language specification.

Modelling conventions (shallow embedding):

* Money is modelled in integer cents (`Int`).  All dollar amounts in the
  Python code are produced by `round(x, 2)`, i.e. they are exact multiples
  of 0.01, and the running balance is re-rounded to 2 decimals at every
  step, so integer-cent arithmetic is the exact-arithmetic reading of the
  float code: `round(balance + signed_amount, 2)` becomes plain addition
  of cents.  The dollar threshold −500 becomes −50000 cents, the forced
  credit range [2000, 4000] becomes [200000, 400000] cents, and so on.

* The process-wide random state of the `random` module is modelled as an
  explicit stream of `Draw` records, one per loop iteration; `ValidDraw`
  states exactly the range guarantees of `random.random`,
  `random.choice`, `random.uniform` and `random.randint` used by the
  code.

* `datetime` values are modelled as an hour counter (`Nat`); the
  `strftime("%Y-%m-%d")` date field of an emitted transaction is modelled
  as the day index `hours / 24`, which is monotone in the underlying
  datetime exactly as the formatted date string is.

* Python `dict` is modelled as an association list with Python's
  semantics: assignment to a present key updates the value in place
  (keeping the key's position), assignment to an absent key appends, and
  iteration order is insertion order.

* `str.strip()` / `str.lower()` are modelled on ASCII data (`pyStrip`,
  `pyLower`); all data handled by the repository is ASCII.

* CSV files are modelled as flat character lists.  The writer follows the
  `csv` module: fields joined by commas, records terminated by CRLF,
  QUOTE_MINIMAL quoting for the generator's export and QUOTE_ALL for the
  category updater.  The reader models `csv.reader`'s field scanning
  (quoted fields with doubled quotes, unquoted fields up to a separator).
-/

/-! ## Python string primitives -/

/-- Whitespace characters removed by Python's `str.strip()`. -/
def pySpace (c : Char) : Bool :=
  c = ' ' || c = '\t' || c = '\n' || c = '\r' || c = '\x0b' || c = '\x0c'

/-- Python `str.strip()`: drop leading and trailing whitespace. -/
def pyStrip (s : String) : String :=
  ⟨((s.data.dropWhile pySpace).reverse.dropWhile pySpace).reverse⟩

/-- Uppercase/lowercase pairs of the basic latin alphabet. -/
def lowerTable : List (Char × Char) :=
  [('A', 'a'), ('B', 'b'), ('C', 'c'), ('D', 'd'), ('E', 'e'), ('F', 'f'),
   ('G', 'g'), ('H', 'h'), ('I', 'i'), ('J', 'j'), ('K', 'k'), ('L', 'l'),
   ('M', 'm'), ('N', 'n'), ('O', 'o'), ('P', 'p'), ('Q', 'q'), ('R', 'r'),
   ('S', 's'), ('T', 't'), ('U', 'u'), ('V', 'v'), ('W', 'w'), ('X', 'x'),
   ('Y', 'y'), ('Z', 'z')]

/-- Python `str.lower()` on a single ASCII character. -/
def lowerChar (c : Char) : Char :=
  (((lowerTable.find? (fun p => p.1 = c)).map (fun p => p.2)).getD c)

/-- Python `str.lower()` (ASCII). -/
def pyLower (s : String) : String :=
  ⟨s.data.map lowerChar⟩

/-! ## Generator: data model (`generate_mock_transactions.py`) -/

/-- `TRANSACTION_TEMPLATES["credit"]` from the source. -/
def creditTemplates : List (String × List String) :=
  [("DEPOSIT", ["PAYROLL DEPOSIT", "DIRECT DEPOSIT", "SALARY"]),
   ("TRANSFER", ["E-TRANSFER FROM", "WIRE RECEIVED", "INTERAC RECEIVED"]),
   ("REFUND", ["REFUND FROM", "CREDIT ADJUSTMENT", "CASHBACK REWARD"]),
   ("INTEREST", ["INTEREST PAYMENT", "SAVINGS INTEREST"])]

/-- `TRANSACTION_TEMPLATES["debit"]` from the source. -/
def debitTemplates : List (String × List String) :=
  [("GROCERY", ["WHOLE FOODS", "TRADER JOE\x27S", "SAFEWAY", "KROGER", "COSTCO"]),
   ("RESTAURANT", ["STARBUCKS", "CHIPOTLE", "MCDONALD\x27S", "SUBWAY", "PANERA BREAD"]),
   ("GAS", ["SHELL", "CHEVRON", "EXXON", "BP", "MOBIL"]),
   ("UTILITY", ["ELECTRIC CO", "WATER DEPT", "GAS COMPANY", "INTERNET PROVIDER"]),
   ("SUBSCRIPTION", ["NETFLIX", "SPOTIFY", "AMAZON PRIME", "APPLE ICLOUD", "YOUTUBE PREMIUM"]),
   ("SHOPPING", ["AMAZON", "TARGET", "WALMART", "BEST BUY", "HOME DEPOT"]),
   ("TRANSFER", ["E-TRANSFER TO", "WIRE TRANSFER", "INTERAC SEND"]),
   ("WITHDRAWAL", ["ATM WITHDRAWAL", "CASH ADVANCE"])]

/-- Credit amount range in cents by category (`generate_transactions`,
the `if category == "DEPOSIT": ...` chain). -/
def creditRange (category : String) : Nat × Nat :=
  if category = "DEPOSIT" then (150000, 400000)
  else if category = "REFUND" then (1000, 20000)
  else if category = "INTEREST" then (50, 1500)
  else (5000, 50000)

/-- Debit amount range in cents by category (`generate_transactions`,
the `if category == "GROCERY": ...` chain; the final `else` branch of the
source is kept although no catalog category reaches it). -/
def debitRange (category : String) : Nat × Nat :=
  if category = "GROCERY" then (2500, 20000)
  else if category = "RESTAURANT" then (500, 7500)
  else if category = "GAS" then (3000, 8000)
  else if category = "UTILITY" then (5000, 20000)
  else if category = "SUBSCRIPTION" then (500, 2500)
  else if category = "SHOPPING" then (2000, 30000)
  else if category = "TRANSFER" then (5000, 50000)
  else if category = "WITHDRAWAL" then (4000, 30000)
  else (1000, 10000)

/-- The random draws consumed by one iteration of the generator loop. -/
structure Draw where
  isCredit : Bool
  catIdx : Nat
  merchIdx : Nat
  amountCents : Nat
  debitTag : Nat
  forcedCatIdx : Nat
  forcedMerchIdx : Nat
  forcedAmountCents : Nat
  dayStep : Nat
  hourStep : Nat
deriving DecidableEq, Repr

/-- The range guarantees of the `random` module for one loop iteration:
`random.choice` returns an index into the chosen catalog,
`round(random.uniform(a, b), 2)` lies in `[a, b]` (both bounds are
multiples of 0.01), `random.randint(a, b)` lies in `[a, b]`. -/
def ValidDraw (d : Draw) : Prop :=
  (d.isCredit = true →
    d.catIdx < creditTemplates.length ∧
    d.merchIdx < ((creditTemplates.getD d.catIdx ("", [])).2).length ∧
    (creditRange (creditTemplates.getD d.catIdx ("", [])).1).1 ≤ d.amountCents ∧
    d.amountCents ≤ (creditRange (creditTemplates.getD d.catIdx ("", [])).1).2) ∧
  (d.isCredit = false →
    d.catIdx < debitTemplates.length ∧
    d.merchIdx < ((debitTemplates.getD d.catIdx ("", [])).2).length ∧
    (debitRange (debitTemplates.getD d.catIdx ("", [])).1).1 ≤ d.amountCents ∧
    d.amountCents ≤ (debitRange (debitTemplates.getD d.catIdx ("", [])).1).2 ∧
    1000 ≤ d.debitTag ∧ d.debitTag ≤ 9999) ∧
  d.forcedCatIdx < creditTemplates.length ∧
  d.forcedMerchIdx < ((creditTemplates.getD d.forcedCatIdx ("", [])).2).length ∧
  200000 ≤ d.forcedAmountCents ∧ d.forcedAmountCents ≤ 400000 ∧
  d.dayStep ≤ 3 ∧ d.hourStep ≤ 23

instance (d : Draw) : Decidable (ValidDraw d) := by
  unfold ValidDraw; infer_instance

/-- Loop state of `generate_transactions`: `current_balance` in cents and
`current_date` as hours since the epoch of the model. -/
structure GenState where
  balance : Int
  dateH : Nat
deriving DecidableEq, Repr

/-- One generated transaction record (the dict built in the loop body).
`date` is the day index of `current_date` (the `strftime("%Y-%m-%d")`
field), `amount` is `abs(amount_value)` in cents, `balance` is in cents. -/
structure Transaction where
  date : Nat
  transaction_type : String
  description : String
  amount : Int
  balance : Int
  currency : String
deriving DecidableEq, Repr

instance : Inhabited Transaction := ⟨⟨0, "", "", 0, 0, ""⟩⟩

/-- The signed amount of an emitted transaction: negative for a Debit,
positive for a Credit. -/
def signedAmount (t : Transaction) : Int :=
  if t.transaction_type = "Credit" then t.amount else -t.amount

/-- One iteration of the `for _ in range(num_transactions)` loop of
`generate_transactions`: pick a credit or debit candidate, apply the
overdraft guard, emit the transaction, advance balance and date. -/
def stepGen (currency : String) (st : GenState) (d : Draw) : GenState × Transaction :=
  let cand : String × String × Int :=
    if d.isCredit then
      let t := creditTemplates.getD d.catIdx ("", [])
      ("Credit", t.2.getD d.merchIdx "", (d.amountCents : Int))
    else
      let t := debitTemplates.getD d.catIdx ("", [])
      ("Debit", (t.2.getD d.merchIdx "") ++ " #" ++ Nat.repr d.debitTag,
       -(d.amountCents : Int))
  let newBalance : Int := st.balance + cand.2.2
  let fin : String × String × Int × Int :=
    if newBalance < -50000 then
      let t := creditTemplates.getD d.forcedCatIdx ("", [])
      ("Credit", t.2.getD d.forcedMerchIdx "", (d.forcedAmountCents : Int),
       st.balance + (d.forcedAmountCents : Int))
    else
      (cand.1, cand.2.1, cand.2.2, newBalance)
  (⟨fin.2.2.2, st.dateH + d.dayStep * 24 + d.hourStep⟩,
   ⟨st.dateH / 24, fin.1, fin.2.1, |fin.2.2.1|, fin.2.2.2, currency⟩)

/-- The generator loop: `i` is the iteration index into the draw stream. -/
def genAux (currency : String) (rng : Nat → Draw) : Nat → Nat → GenState → List Transaction
  | 0, _, _ => []
  | n + 1, i, st =>
    let p := stepGen currency st (rng i)
    p.2 :: genAux currency rng n (i + 1) p.1

/-- `generate_transactions` from the source, over an explicit draw
stream `rng`.  Always succeeds and returns the transactions in
generation order. -/
def generate_transactions (num_transactions : Nat) (rng : Nat → Draw)
    (startH : Nat) (initial_balance : Int) (currency : String) : List Transaction :=
  genAux currency rng num_transactions 0 ⟨initial_balance, startH⟩

/-- The balance-chain invariant: each transaction's balance is the
previous one's balance (the initial balance for the first) plus its
signed amount. -/
def chainOk : Int → List Transaction → Prop
  | _, [] => True
  | prev, t :: ts => t.balance = prev + signedAmount t ∧ chainOk t.balance ts

/-! ## CSV model (the `csv` module, on flat character lists) -/

/-- A field must be quoted under QUOTE_MINIMAL when it contains the
delimiter, the quote character, or a line break. -/
def needsQuote (f : List Char) : Bool :=
  f.any (fun c => c = ',' || c = '"' || c = '\r' || c = '\n')

/-- Double every quote character (the escaping inside a quoted field). -/
def doubleQuotes : List Char → List Char
  | [] => []
  | c :: rest =>
    if c = '"' then '"' :: '"' :: doubleQuotes rest else c :: doubleQuotes rest

/-- Serialize one field under QUOTE_MINIMAL. -/
def encField (f : List Char) : List Char :=
  if needsQuote f then '"' :: (doubleQuotes f ++ ['"']) else f

/-- Serialize one field under QUOTE_ALL: always quoted. -/
def encFieldAll (f : List Char) : List Char :=
  '"' :: (doubleQuotes f ++ ['"'])

/-- Join already-serialized fields with the `,` delimiter. -/
def joinComma : List (List Char) → List Char
  | [] => []
  | [f] => f
  | f :: rest => f ++ ',' :: joinComma rest

/-- Serialize one record under QUOTE_MINIMAL, with the writer's default
`\r\n` line terminator. -/
def encRow (fs : List (List Char)) : List Char :=
  joinComma (fs.map encField) ++ ['\r', '\n']

/-- Serialize one record under QUOTE_ALL. -/
def encRowAll (fs : List (List Char)) : List Char :=
  joinComma (fs.map encFieldAll) ++ ['\r', '\n']

/-- Serialize a whole file under QUOTE_MINIMAL. -/
def encFile (rows : List (List (List Char))) : List Char :=
  (rows.map encRow).flatten

/-- Serialize a whole file under QUOTE_ALL. -/
def encFileAll (rows : List (List (List Char))) : List Char :=
  (rows.map encRowAll).flatten

/-- `csv.reader` field scanning, inside a quoted field: characters up to
the closing quote, a doubled quote standing for a literal quote. -/
def parseQuotedBody : List Char → List Char × List Char
  | [] => ([], [])
  | c :: rest =>
    if c = '"' then
      if rest.head? = some '"' then
        let p := parseQuotedBody rest.tail
        ('"' :: p.1, p.2)
      else ([], rest)
    else
      let p := parseQuotedBody rest
      (c :: p.1, p.2)
termination_by l => l.length
decreasing_by
  · simp [List.length_tail]
    omega
  · simp

/-- `csv.reader` field scanning, unquoted field: characters up to a
delimiter or line break (left unconsumed). -/
def parseUnquoted : List Char → List Char × List Char
  | [] => ([], [])
  | c :: rest =>
    if c = ',' || c = '\r' || c = '\n' then ([], c :: rest)
    else
      let p := parseUnquoted rest
      (c :: p.1, p.2)

/-- Scan one field: a leading quote opens a quoted field, anything else
starts an unquoted field. -/
def parseField (s : List Char) : List Char × List Char :=
  if s.head? = some '"' then parseQuotedBody s.tail else parseUnquoted s

/-- Scan one record: fields separated by `,`, terminated by a line break
or the end of input.  Fuelled recursion (the fuel only needs to exceed
the number of fields). -/
def parseRecordAux : Nat → List Char → List (List Char) × List Char
  | 0, s => ([], s)
  | fuel + 1, s =>
    let p := parseField s
    match p.2 with
    | ',' :: r2 =>
      let q := parseRecordAux fuel r2
      (p.1 :: q.1, q.2)
    | '\r' :: '\n' :: r2 => ([p.1], r2)
    | '\r' :: r2 => ([p.1], r2)
    | '\n' :: r2 => ([p.1], r2)
    | _ => ([p.1], [])

/-- Scan a whole file: records until the input is exhausted. -/
def parseFileAux : Nat → List Char → List (List (List Char))
  | 0, _ => []
  | fuel + 1, s =>
    if s.isEmpty then []
    else
      let p := parseRecordAux (s.length + 1) s
      p.1 :: parseFileAux fuel p.2

/-- Parse a serialized CSV file back into its records. -/
def parseFile (s : List Char) : List (List (List Char)) :=
  parseFileAux (s.length + 1) s

/-! ## Generator: export (`export_to_csv`) -/

/-- The fixed `fieldnames` list of `export_to_csv`. -/
def headerFields : List (List Char) :=
  ["date", "transaction_type", "description", "amount", "balance",
   "currency"].map String.data

/-- Render an integer number of cents as a decimal numeral string (the
number-to-text conversion applied when a row is written). -/
def fmtCents (n : Int) : String :=
  let a := n.natAbs
  (if n < 0 then "-" else "") ++ Nat.repr (a / 100) ++ "." ++
    (if a % 100 < 10 then "0" else "") ++ Nat.repr (a % 100)

/-- The six fields of one written row, in the fixed header order. -/
def txFields (t : Transaction) : List (List Char) :=
  [(Nat.repr t.date).data, t.transaction_type.data, t.description.data,
   (fmtCents t.amount).data, (fmtCents t.balance).data, t.currency.data]

/-- `export_to_csv` from the source: on an empty transaction list the
function returns before opening the file (no content is produced, hence
`none`); otherwise the file holds the header row followed by one row per
transaction, in order. -/
def export_to_csv (transactions : List Transaction) : Option (List Char) :=
  if transactions.isEmpty then none
  else some (encFile (headerFields :: transactions.map txFields))

/-! ## Updater: Python dicts as insertion-ordered association lists -/

/-- Python `d[k] = v`: update in place if the key is present (keeping
its position), append otherwise. -/
def dictSet (m : List (String × String)) (k v : String) : List (String × String) :=
  if m.any (fun p => p.1 = k) then
    m.map (fun p => if p.1 = k then (k, v) else p)
  else m ++ [(k, v)]

/-- Python `d[k]` / `k in d`: first binding of `k` in iteration order. -/
def dictGet? (m : List (String × String)) (k : String) : Option String :=
  (m.find? (fun p => p.1 = k)).map (fun p => p.2)

/-- The keys of a dict, in iteration order. -/
def dictKeys (m : List (String × String)) : List String :=
  m.map (fun p => p.1)

/-- A row of a transaction CSV file as seen by `csv.DictReader`: field
name / value pairs in column order. -/
abbrev Row := List (String × String)

/-- Python `row.get(k, '')`. -/
def rowGet (row : Row) (k : String) : String :=
  (dictGet? row k).getD ""

/-! ## Updater: `load_merchant_mapping` -/

/-- One row of the merchant mapping file (`Merchant` and `Category`
columns). -/
structure MapRow where
  merchant : String
  category : String
deriving DecidableEq, Repr

/-- The loop body of `load_merchant_mapping`: rows with a non-empty
trimmed merchant and category insert the trimmed merchant and its
lowercase form, both bound to the trimmed category; other rows are
skipped. -/
def loadStep (m : List (String × String)) (row : MapRow) : List (String × String) :=
  let merchant := pyStrip row.merchant
  let category := pyStrip row.category
  if merchant ≠ "" ∧ category ≠ "" then
    dictSet (dictSet m merchant category) (pyLower merchant) category
  else m

/-- `load_merchant_mapping` from the source. -/
def load_merchant_mapping (rows : List MapRow) : List (String × String) :=
  rows.foldl loadStep []

/-- The count printed by `main`:
`len(mapping) // 2` ("Loaded N merchant mappings"). -/
def reportedMappingCount (rows : List MapRow) : Nat :=
  (load_merchant_mapping rows).length / 2

/-- The number of source rows actually loaded (not skipped). -/
def countLoadedRows (rows : List MapRow) : Nat :=
  rows.countP (fun r => pyStrip r.merchant ≠ "" && pyStrip r.category ≠ "")

/-! ## Updater: `update_csv_categories` -/

/-- Modelled from the spec: the resolution order of §4.4 — (a) exact
match of the trimmed description against a mapping key, (b) match of the
lowercased description against a mapping key, (c) first mapping entry in
iteration order whose lowercased merchant key is a prefix of the
lowercased description.  This is the spec-side description, to be
compared with `resolveRow` below, which embeds the code. -/
def resolveCategorySpec (mapping : List (String × String)) (description : String) : Option String :=
  match dictGet? mapping description with
  | some c => some c
  | none =>
    match dictGet? mapping (pyLower description) with
    | some c => some c
    | none =>
      (mapping.find?
        (fun p => (pyLower p.1).data.isPrefixOf (pyLower description).data)).map
        (fun p => p.2)

/-- The loop body of `update_csv_categories` for one row: on an eligible
row (trimmed category is the sentinel and trimmed description non-empty)
try the exact key, then the lowercased key, then the linear prefix scan;
on a match overwrite the `category` field and report `true`. -/
def resolveRow (mapping : List (String × String)) (row : Row) : Row × Bool :=
  let description := pyStrip (rowGet row "description")
  let currentCategory := pyStrip (rowGet row "category")
  if currentCategory = "Uncategorized" ∧ description ≠ "" then
    match dictGet? mapping description with
    | some c => (dictSet row "category" c, true)
    | none =>
      match dictGet? mapping (pyLower description) with
      | some c => (dictSet row "category" c, true)
      | none =>
        match mapping.find?
            (fun p => (pyLower p.1).data.isPrefixOf (pyLower description).data) with
        | some p => (dictSet row "category" p.2, true)
        | none => (row, false)
  else (row, false)

/-- The row loop of `update_csv_categories`: rebuilt row list and the
updated-row count. -/
def updateRows (mapping : List (String × String)) : List Row → List Row × Nat
  | [] => ([], 0)
  | row :: rest =>
    let p := resolveRow mapping row
    let q := updateRows mapping rest
    (p.1 :: q.1, (if p.2 then 1 else 0) + q.2)

/-- Outcome of one `update_csv_categories` call: the file text after the
call, whether the file was rewritten, and the returned count. -/
structure UpdateRun where
  fileText : List Char
  wrote : Bool
  count : Nat
deriving DecidableEq, Repr

/-- The values of one row in the original column order, as written by
`csv.DictWriter` (rows coming from `DictReader` bind every field name). -/
def rowFields (fieldnames : List String) (row : Row) : List (List Char) :=
  fieldnames.map (fun f => (rowGet row f).data)

/-- `update_csv_categories` from the source: update the parsed rows; if
any row was updated, rewrite the whole file (header plus every row, all
fields quoted, original column order), otherwise leave the file's
contents untouched; return the count either way.  `fileText` is the
file's content before the call, `fieldnames`/`rows` its parse. -/
def update_csv_categories (fileText : List Char) (fieldnames : List String)
    (rows : List Row) (mapping : List (String × String)) : UpdateRun :=
  let p := updateRows mapping rows
  if 0 < p.2 then
    ⟨encFileAll ((fieldnames.map String.data) :: p.1.map (rowFields fieldnames)),
     true, p.2⟩
  else ⟨fileText, false, p.2⟩

/-! ## Concrete sample data for the witnesses -/

/-- A valid credit draw: DEPOSIT, PAYROLL DEPOSIT, $2000.00. -/
def drawCreditSample : Draw := ⟨true, 0, 0, 200000, 1000, 0, 0, 200000, 0, 0⟩

/-- A valid debit draw: GROCERY, WHOLE FOODS, $200.00, with a forced
credit of $3000.00 on standby. -/
def drawGuardSample : Draw := ⟨false, 0, 0, 20000, 1234, 0, 0, 300000, 1, 2⟩

/-- The mapping file of the spec's backfill example. -/
def mappingRowsSample : List MapRow := [⟨"Starbucks", "Coffee"⟩]

/-- A mapping file whose two rows collide case-insensitively. -/
def caseCollideRowsSample : List MapRow := [⟨"Starbucks", "A"⟩, ⟨"STARBUCKS", "B"⟩]

/-- An uncategorized transaction row (the spec's backfill example). -/
def rowUncatSample : Row :=
  [("date", "2025-08-01"), ("description", "STARBUCKS #4821"),
   ("category", "Uncategorized")]

/-- An already-categorized transaction row. -/
def rowDoneSample : Row :=
  [("date", "2025-08-01"), ("description", "STARBUCKS #4821"),
   ("category", "Coffee")]

/-- A concrete generated transaction. -/
def txSample : Transaction := ⟨2, "Credit", "PAYROLL DEPOSIT", 200000, 200000, "CAD"⟩

/-! ## Theorems: the generator -/

theorem stepGen_date (currency : String) (st : GenState) (d : Draw) :
    ((stepGen currency st d).2).date = st.dateH / 24 ∧
    ((stepGen currency st d).1).dateH = st.dateH + d.dayStep * 24 + d.hourStep :=
  ⟨rfl, rfl⟩

theorem stepGen_state_balance (currency : String) (st : GenState) (d : Draw) :
    ((stepGen currency st d).1).balance = ((stepGen currency st d).2).balance :=
  rfl

theorem stepGen_balance (currency : String) (st : GenState) (d : Draw) :
    ((stepGen currency st d).2).balance =
      st.balance + signedAmount (stepGen currency st d).2 := by
  cases hc : d.isCredit
  · by_cases hg : st.balance + -(d.amountCents : Int) < -50000
    · simp [stepGen, signedAmount, hc, hg]
    · simp [stepGen, signedAmount, hc, hg]
  · by_cases hg : st.balance + (d.amountCents : Int) < -50000
    · simp [stepGen, signedAmount, hc, hg]
    · simp [stepGen, signedAmount, hc, hg]

theorem chainOk_genAux (currency : String) (rng : Nat → Draw) :
    ∀ (n i : Nat) (st : GenState), chainOk st.balance (genAux currency rng n i st) := by
  intro n
  induction n with
  | zero => intro i st; simp [genAux, chainOk]
  | succ n ih =>
    intro i st
    simp only [genAux, chainOk]
    refine ⟨stepGen_balance currency st (rng i), ?_⟩
    have h := ih (i + 1) (stepGen currency st (rng i)).1
    rwa [stepGen_state_balance] at h

/-- Claim C1: in every generated sequence, each transaction's balance is
the previous transaction's balance (the initial balance for the first
transaction) plus the signed amount — negative for a Debit, positive for
a Credit.  In the integer-cent model the 2-decimal rounding of the source
is exact addition. -/
theorem claim_C1_balance_chain (n : Nat) (rng : Nat → Draw) (startH : Nat)
    (initial_balance : Int) (currency : String) :
    chainOk initial_balance (generate_transactions n rng startH initial_balance currency) :=
  chainOk_genAux currency rng n 0 ⟨initial_balance, startH⟩

/-- Claim C2: in every generator iteration whose tentative balance after
the randomly chosen transaction falls strictly below −500.00, the chosen
transaction is replaced by a forced Credit whose amount is the forced
draw (in [2000.00, 4000.00]) and the new balance is recomputed from the
pre-transaction balance; consequently an emitted Debit never leaves the
balance below −500.00. -/
theorem claim_C2_overdraft_guard (currency : String) (st : GenState) (d : Draw)
    (hd : ValidDraw d) :
    (st.balance + (if d.isCredit then (d.amountCents : Int) else -(d.amountCents : Int))
        < -50000 →
      ((stepGen currency st d).2).transaction_type = "Credit" ∧
      ((stepGen currency st d).2).amount = (d.forcedAmountCents : Int) ∧
      200000 ≤ d.forcedAmountCents ∧ d.forcedAmountCents ≤ 400000 ∧
      ((stepGen currency st d).2).balance = st.balance + (d.forcedAmountCents : Int)) ∧
    (((stepGen currency st d).2).transaction_type = "Debit" →
      -50000 ≤ ((stepGen currency st d).2).balance) := by
  obtain ⟨-, -, -, -, hf1, hf2, -, -⟩ := hd
  constructor
  · intro hg
    cases hc : d.isCredit
    · have hg2 : st.balance + -(d.amountCents : Int) < -50000 := by
        rw [hc] at hg; simpa using hg
      simp only [stepGen, hc, Bool.false_eq_true, if_false]
      rw [if_pos hg2]
      refine ⟨rfl, ?_, hf1, hf2, rfl⟩
      simp
    · have hg2 : st.balance + (d.amountCents : Int) < -50000 := by
        rw [hc] at hg; simpa using hg
      simp only [stepGen, hc, if_true]
      rw [if_pos hg2]
      refine ⟨rfl, ?_, hf1, hf2, rfl⟩
      simp
  · intro ht
    cases hc : d.isCredit
    · by_cases hg : st.balance + -(d.amountCents : Int) < -50000
      · simp only [stepGen, hc, Bool.false_eq_true, if_false, if_pos hg] at ht
        exact absurd ht (by decide)
      · simp only [stepGen, hc, Bool.false_eq_true, if_false, if_neg hg]
        omega
    · by_cases hg : st.balance + (d.amountCents : Int) < -50000
      · simp only [stepGen, hc, if_true, if_pos hg] at ht
        exact absurd ht (by decide)
      · simp only [stepGen, hc, if_true, if_neg hg] at ht
        exact absurd ht (by decide)

theorem length_genAux (currency : String) (rng : Nat → Draw) :
    ∀ (n i : Nat) (st : GenState), (genAux currency rng n i st).length = n := by
  intro n
  induction n with
  | zero => intro i st; rfl
  | succ n ih => intro i st; simp [genAux, ih]

theorem genAux_date_lb (currency : String) (rng : Nat → Draw) :
    ∀ (n i : Nat) (st : GenState),
      ∀ t ∈ genAux currency rng n i st, st.dateH / 24 ≤ t.date := by
  intro n
  induction n with
  | zero => intro i st t ht; simp [genAux] at ht
  | succ n ih =>
    intro i st t ht
    simp only [genAux, List.mem_cons] at ht
    rcases ht with h | h
    · subst h
      rw [(stepGen_date currency st (rng i)).1]
    · have hle := ih (i + 1) (stepGen currency st (rng i)).1 t h
      refine le_trans ?_ hle
      rw [(stepGen_date currency st (rng i)).2]
      exact Nat.div_le_div_right (by omega)

theorem genAux_dates_sorted (currency : String) (rng : Nat → Draw) :
    ∀ (n i : Nat) (st : GenState),
      (genAux currency rng n i st).Pairwise (fun a b => a.date ≤ b.date) := by
  intro n
  induction n with
  | zero => intro i st; simp [genAux]
  | succ n ih =>
    intro i st
    simp only [genAux]
    refine List.Pairwise.cons ?_ (ih (i + 1) _)
    intro t ht
    have hlb := genAux_date_lb currency rng n (i + 1) _ t ht
    refine le_trans ?_ hlb
    rw [(stepGen_date currency st (rng i)).1, (stepGen_date currency st (rng i)).2]
    exact Nat.div_le_div_right (by omega)

/-- Claim C7: for every count (and any start date, initial balance and
currency) the generator succeeds (it is total) and returns exactly
`count` transactions, in generation order, with non-decreasing dates. -/
theorem claim_C7_count_and_order (n : Nat) (rng : Nat → Draw) (startH : Nat)
    (initial_balance : Int) (currency : String) :
    (generate_transactions n rng startH initial_balance currency).length = n ∧
    (generate_transactions n rng startH initial_balance currency).Pairwise
      (fun a b => a.date ≤ b.date) :=
  ⟨length_genAux currency rng n 0 _, genAux_dates_sorted currency rng n 0 _⟩

theorem stepGen_balance_lb (currency : String) (st : GenState) (d : Draw)
    (hd : ValidDraw d) (hb : -50000 ≤ st.balance) :
    -50000 ≤ ((stepGen currency st d).2).balance := by
  obtain ⟨-, -, -, -, hf1, -, -, -⟩ := hd
  cases hc : d.isCredit
  · by_cases hg : st.balance + -(d.amountCents : Int) < -50000
    · simp only [stepGen, hc, Bool.false_eq_true, if_false, if_pos hg]
      omega
    · simp only [stepGen, hc, Bool.false_eq_true, if_false, if_neg hg]
      omega
  · by_cases hg : st.balance + (d.amountCents : Int) < -50000
    · simp only [stepGen, hc, if_true, if_pos hg]
      omega
    · simp only [stepGen, hc, if_true, if_neg hg]
      omega

theorem genAux_balance_lb (currency : String) (rng : Nat → Draw)
    (hv : ∀ i, ValidDraw (rng i)) :
    ∀ (n i : Nat) (st : GenState), -50000 ≤ st.balance →
      ∀ t ∈ genAux currency rng n i st, -50000 ≤ t.balance := by
  intro n
  induction n with
  | zero => intro i st _ t ht; simp [genAux] at ht
  | succ n ih =>
    intro i st hb t ht
    simp only [genAux, List.mem_cons] at ht
    rcases ht with h | h
    · subst h; exact stepGen_balance_lb currency st (rng i) (hv i) hb
    · refine ih (i + 1) (stepGen currency st (rng i)).1 ?_ t h
      rw [stepGen_state_balance]
      exact stepGen_balance_lb currency st (rng i) (hv i) hb

/-- Claim C9: for every count and every valid random draw stream, if the
initial balance is at least −500.00 then every emitted transaction has
balance at least −500.00: a non-forced transaction only passes the
guard, and a forced credit adds at least 2000.00 to a pre-transaction
balance that is at least −500.00 by induction. -/
theorem claim_C9_no_overdraft (n : Nat) (rng : Nat → Draw) (startH : Nat)
    (initial_balance : Int) (currency : String)
    (hb : -50000 ≤ initial_balance) (hv : ∀ i, ValidDraw (rng i)) :
    ∀ t ∈ generate_transactions n rng startH initial_balance currency,
      -50000 ≤ t.balance :=
  genAux_balance_lb currency rng hv n 0 ⟨initial_balance, startH⟩ hb

/-- Witness for C2: a concrete iteration whose grocery debit would push
the balance from −490.00 to −690.00 is replaced by the forced $3000.00
credit, landing at 2510.00. -/
theorem claim_C2_witness :
    ValidDraw drawGuardSample ∧
    ((-49000 : Int) +
      (if drawGuardSample.isCredit then (drawGuardSample.amountCents : Int)
       else -(drawGuardSample.amountCents : Int)) < -50000) ∧
    ((stepGen "CAD" ⟨-49000, 0⟩ drawGuardSample).2).transaction_type = "Credit" ∧
    ((stepGen "CAD" ⟨-49000, 0⟩ drawGuardSample).2).balance = 251000 := by
  have h := claim_C2_overdraft_guard "CAD" ⟨-49000, 0⟩ drawGuardSample (by decide)
  have hg : ((⟨-49000, 0⟩ : GenState).balance +
      (if drawGuardSample.isCredit then (drawGuardSample.amountCents : Int)
       else -(drawGuardSample.amountCents : Int)) < -50000) := by decide
  refine ⟨by decide, hg, (h.1 hg).1, ?_⟩
  rw [(h.1 hg).2.2.2.2]; decide

/-- Witness for C9: a single-iteration run from balance 0 with a payroll
deposit stays at or above −500.00. -/
theorem claim_C9_witness :
    ((-50000 : Int) ≤ 0) ∧ ValidDraw drawCreditSample ∧
    ((-50000 : Int) ≤
      (⟨2, "Credit", "PAYROLL DEPOSIT", 200000, 200000, "CAD"⟩ : Transaction).balance) := by
  refine ⟨by decide, by decide, ?_⟩
  exact claim_C9_no_overdraft 1 (fun _ => drawCreditSample) 48 0 "CAD" (by decide)
    (fun _ => (by decide : ValidDraw drawCreditSample)) _ (by decide)


/-! ## Theorems: association-list dictionaries -/

theorem find?_updateKey_of_any (m : List (String × String)) (k v : String)
    (h : m.any (fun p => p.1 = k) = true) :
    (m.map (fun p => if p.1 = k then (k, v) else p)).find? (fun p => p.1 = k) =
      some (k, v) := by
  induction m with
  | nil => simp at h
  | cons p rest ih =>
    by_cases hp : p.1 = k
    · simp [hp]
    · have h2 : rest.any (fun q => q.1 = k) = true := by
        simpa [List.any_cons, hp] using h
      simpa [hp] using ih h2

theorem find?_updateKey_ne (m : List (String × String)) (k v k' : String)
    (h : k' ≠ k) :
    (m.map (fun p => if p.1 = k then (k, v) else p)).find? (fun p => p.1 = k') =
      m.find? (fun p => p.1 = k') := by
  induction m with
  | nil => rfl
  | cons p rest ih =>
    by_cases hp : p.1 = k
    · have hk' : ¬(k = k') := fun hkk => h hkk.symm
      have hp' : ¬(p.1 = k') := by rw [hp]; exact hk'
      simp [hp, hk', hp', ih]
    · by_cases hp' : p.1 = k'
      · simp only [List.map_cons, if_neg hp]
        rw [List.find?_cons_of_pos _ (by simp [hp']),
          List.find?_cons_of_pos _ (by simp [hp'])]
      · simp [hp, hp', ih]

theorem find?_append_of_not_any {α : Type} (m l : List α) (f : α → Bool)
    (h : m.any f = false) : (m ++ l).find? f = l.find? f := by
  induction m with
  | nil => rfl
  | cons p rest ih =>
    have hp : f p = false := by
      cases hfp : f p
      · rfl
      · simp [List.any_cons, hfp] at h
    have h2 : rest.any f = false := by
      simpa [List.any_cons, hp] using h
    simp [List.find?_cons_of_neg, hp, ih h2]

theorem dictGet?_set_self (m : List (String × String)) (k v : String) :
    dictGet? (dictSet m k v) k = some v := by
  unfold dictSet dictGet?
  by_cases hany : m.any (fun p => p.1 = k) = true
  · rw [if_pos hany, find?_updateKey_of_any m k v hany]; rfl
  · rw [if_neg hany,
      find?_append_of_not_any m _ _ (eq_false_of_ne_true hany)]
    simp

theorem dictGet?_set_ne (m : List (String × String)) (k v k' : String)
    (h : k' ≠ k) : dictGet? (dictSet m k v) k' = dictGet? m k' := by
  unfold dictSet dictGet?
  by_cases hany : m.any (fun p => p.1 = k) = true
  · rw [if_pos hany, find?_updateKey_ne m k v k' h]
  · rw [if_neg hany]
    cases hf : m.find? (fun p => p.1 = k') with
    | some p => simp [List.find?_append, hf]
    | none =>
      have : (m ++ [(k, v)]).find? (fun p => p.1 = k') = [(k, v)].find? (fun p => p.1 = k') := by
        refine find?_append_of_not_any m _ _ ?_
        cases hany2 : m.any (fun p => p.1 = k') with
        | false => rfl
        | true =>
          obtain ⟨p, hmem, hp⟩ := List.any_eq_true.mp hany2
          have := List.find?_eq_none.mp hf p hmem
          simp_all
      rw [this]
      have hk : ¬((k, v).1 = k') := fun hkk => h hkk.symm
      simp [hf, hk]

theorem dictKeys_set_of_any (m : List (String × String)) (k v : String)
    (h : m.any (fun p => p.1 = k) = true) :
    dictKeys (dictSet m k v) = dictKeys m := by
  unfold dictSet dictKeys
  rw [if_pos h, List.map_map]
  refine List.map_congr_left ?_
  intro p _
  by_cases hp : p.1 = k
  · simp [hp]
  · simp [hp]

theorem dictKeys_set_of_not_any (m : List (String × String)) (k v : String)
    (h : ¬(m.any (fun p => p.1 = k) = true)) :
    dictKeys (dictSet m k v) = dictKeys m ++ [k] := by
  unfold dictSet dictKeys
  rw [if_neg h]
  simp

theorem mem_dictKeys_set (m : List (String × String)) (k v x : String) :
    x ∈ dictKeys (dictSet m k v) ↔ x ∈ dictKeys m ∨ x = k := by
  by_cases hany : m.any (fun p => p.1 = k) = true
  · rw [dictKeys_set_of_any m k v hany]
    constructor
    · exact fun h => Or.inl h
    · rintro (h | rfl)
      · exact h
      · obtain ⟨p, hmem, hp⟩ := List.any_eq_true.mp hany
        have : p.1 = x := of_decide_eq_true hp
        subst this
        exact List.mem_map_of_mem (fun q => q.1) hmem
  · rw [dictKeys_set_of_not_any m k v hany]
    simp

theorem length_dictSet (m : List (String × String)) (k v : String) :
    (dictSet m k v).length =
      if m.any (fun p => p.1 = k) = true then m.length else m.length + 1 := by
  unfold dictSet
  by_cases hany : m.any (fun p => p.1 = k) = true
  · simp [hany]
  · simp [hany]

theorem dictGet?_eq_none_of_not_any (m : List (String × String)) (k : String)
    (h : m.any (fun p => p.1 = k) = false) : dictGet? m k = none := by
  unfold dictGet?
  have : m.find? (fun p => p.1 = k) = none := by
    rw [List.find?_eq_none]
    intro p hmem hp
    have : m.any (fun q => q.1 = k) = true := List.any_eq_true.mpr ⟨p, hmem, hp⟩
    simp [this] at h
  simp [this]

/-! ## Theorems: ASCII lowercasing -/

theorem lowerChar_idem (c : Char) : lowerChar (lowerChar c) = lowerChar c := by
  have htab : ∀ p ∈ lowerTable, lowerChar p.2 = p.2 := by
    intro p hp
    have hall : lowerTable.all (fun q => lowerChar q.2 == q.2) = true := by decide
    exact eq_of_beq (List.all_eq_true.mp hall p hp)
  cases hf : lowerTable.find? (fun p => p.1 = c) with
  | none =>
    have h1 : lowerChar c = c := by simp [lowerChar, hf]
    rw [h1]
    exact h1
  | some p =>
    have hmem : p ∈ lowerTable := List.mem_of_find?_eq_some hf
    have h1 : lowerChar c = p.2 := by simp [lowerChar, hf]
    rw [h1]
    exact htab p hmem

theorem map_lowerChar_idem (l : List Char) :
    (l.map lowerChar).map lowerChar = l.map lowerChar := by
  induction l with
  | nil => rfl
  | cons c rest ih => simp [lowerChar_idem, ih]

theorem pyLower_idem (s : String) : pyLower (pyLower s) = pyLower s := by
  unfold pyLower
  exact congrArg String.mk (map_lowerChar_idem s.data)

/-! ## Theorems: `load_merchant_mapping` (claims C4 and C10) -/

theorem loadStep_length_le (m : List (String × String)) (r : MapRow) :
    m.length ≤ (loadStep m r).length ∧
      (loadStep m r).length ≤ m.length + 2 := by
  unfold loadStep
  by_cases h : pyStrip r.merchant ≠ "" ∧ pyStrip r.category ≠ ""
  · rw [if_pos h]
    have h1 := length_dictSet m (pyStrip r.merchant) (pyStrip r.category)
    have h2 := length_dictSet (dictSet m (pyStrip r.merchant) (pyStrip r.category))
      (pyLower (pyStrip r.merchant)) (pyStrip r.category)
    constructor
    · rw [h2]
      split
      · rw [h1]; split <;> omega
      · rw [h1]; split <;> omega
    · rw [h2]
      split
      · rw [h1]; split <;> omega
      · rw [h1]; split <;> omega
  · rw [if_neg h]; omega

theorem load_length_le (rows : List MapRow) :
    ∀ m : List (String × String),
      (rows.foldl loadStep m).length ≤ m.length + 2 * countLoadedRows rows := by
  induction rows with
  | nil => intro m; simp [countLoadedRows]
  | cons r rest ih =>
    intro m
    have hstep := loadStep_length_le m r
    have hrest := ih (loadStep m r)
    rw [List.foldl_cons]
    by_cases helig : pyStrip r.merchant ≠ "" ∧ pyStrip r.category ≠ ""
    · have hcount : countLoadedRows (r :: rest) = countLoadedRows rest + 1 := by
        unfold countLoadedRows
        rw [List.countP_cons]
        simp [helig.1, helig.2]
      rw [hcount]
      omega
    · have hcount : countLoadedRows (r :: rest) = countLoadedRows rest := by
        unfold countLoadedRows
        rw [List.countP_cons]
        rcases not_and_or.mp helig with h | h <;> simp [not_not.mp h]
      have hskip : loadStep m r = m := by unfold loadStep; rw [if_neg helig]
      rw [hcount, hskip]
      rw [hskip] at hrest
      omega

/-- Claim C4 (amended): a loaded row binds both the trimmed merchant and
its lowercase form to the trimmed category (one map entry instead of two
when these coincide or a key already exists), rows with an empty trimmed
merchant or category are skipped, and the reported count — map entries
divided by two — is at most the number of rows loaded (it can
undercount, see the counterexample). -/
theorem claim_C4_load_mapping (m : List (String × String)) (r : MapRow)
    (rows : List MapRow) :
    (pyStrip r.merchant ≠ "" → pyStrip r.category ≠ "" →
      dictGet? (loadStep m r) (pyStrip r.merchant) = some (pyStrip r.category) ∧
      dictGet? (loadStep m r) (pyLower (pyStrip r.merchant)) = some (pyStrip r.category) ∧
      m.length ≤ (loadStep m r).length ∧ (loadStep m r).length ≤ m.length + 2) ∧
    ((pyStrip r.merchant = "" ∨ pyStrip r.category = "") → loadStep m r = m) ∧
    reportedMappingCount rows ≤ countLoadedRows rows := by
  refine ⟨?_, ?_, ?_⟩
  · intro h1 h2
    have helig : pyStrip r.merchant ≠ "" ∧ pyStrip r.category ≠ "" := ⟨h1, h2⟩
    have hstep : loadStep m r =
        dictSet (dictSet m (pyStrip r.merchant) (pyStrip r.category))
          (pyLower (pyStrip r.merchant)) (pyStrip r.category) := by
      unfold loadStep; rw [if_pos helig]
    refine ⟨?_, ?_, loadStep_length_le m r⟩
    · rw [hstep]
      by_cases hlow : pyStrip r.merchant = pyLower (pyStrip r.merchant)
      · rw [← hlow, dictGet?_set_self]
      · rw [dictGet?_set_ne _ _ _ _ hlow, dictGet?_set_self]
    · rw [hstep, dictGet?_set_self]
  · intro h
    unfold loadStep
    rw [if_neg (by tauto)]
  · have h := load_length_le rows []
    simp only [List.length_nil] at h
    unfold reportedMappingCount load_merchant_mapping
    omega

/-- Counterexample for C4: the row `Merchant="starbucks"` (already
lowercase) yields one map entry, not two, so the reported count
`len(mapping) // 2 = 0` differs from the one row loaded. -/
theorem claim_C4_counterexample :
    countLoadedRows [⟨"starbucks", "Coffee"⟩] = 1 ∧
    (load_merchant_mapping [⟨"starbucks", "Coffee"⟩]).length = 1 ∧
    reportedMappingCount [⟨"starbucks", "Coffee"⟩] = 0 := by
  refine ⟨?_, ?_, ?_⟩ <;> rfl

/-- Witness for C4: loading `Merchant="Starbucks", Category="Coffee"`
binds both `"Starbucks"` and `"starbucks"` to `"Coffee"`, and the
reported count does not exceed the number of loaded rows. -/
theorem claim_C4_witness :
    (pyStrip "Starbucks" ≠ "") ∧ (pyStrip "Coffee" ≠ "") ∧
    dictGet? (loadStep [] ⟨"Starbucks", "Coffee"⟩) (pyStrip "Starbucks") = some (pyStrip "Coffee") ∧
    dictGet? (loadStep [] ⟨"Starbucks", "Coffee"⟩) (pyLower (pyStrip "Starbucks")) = some (pyStrip "Coffee") ∧
    reportedMappingCount mappingRowsSample ≤ countLoadedRows mappingRowsSample := by
  have h := claim_C4_load_mapping [] ⟨"Starbucks", "Coffee"⟩ mappingRowsSample
  have h1 : pyStrip ("Starbucks" : String) ≠ "" := by decide
  have h2 : pyStrip ("Coffee" : String) ≠ "" := by decide
  exact ⟨h1, h2, (h.1 h1 h2).1, (h.1 h1 h2).2.1, h.2.2⟩

theorem loadStep_keys_closed (m : List (String × String)) (r : MapRow)
    (hm : ∀ k ∈ dictKeys m, pyLower k ∈ dictKeys m) :
    ∀ k ∈ dictKeys (loadStep m r), pyLower k ∈ dictKeys (loadStep m r) := by
  unfold loadStep
  by_cases helig : pyStrip r.merchant ≠ "" ∧ pyStrip r.category ≠ ""
  · rw [if_pos helig]
    intro k hk
    rw [mem_dictKeys_set, mem_dictKeys_set] at hk
    rw [mem_dictKeys_set, mem_dictKeys_set]
    rcases hk with (hk | rfl) | rfl
    · left; left; exact hm k hk
    · right; rfl
    · right; exact pyLower_idem (pyStrip r.merchant)
  · rw [if_neg helig]
    exact hm

theorem load_keys_closed (rows : List MapRow) :
    ∀ m : List (String × String),
      (∀ k ∈ dictKeys m, pyLower k ∈ dictKeys m) →
      ∀ k ∈ dictKeys (rows.foldl loadStep m),
        pyLower k ∈ dictKeys (rows.foldl loadStep m) := by
  induction rows with
  | nil => intro m hm; exact hm
  | cons r rest ih =>
    intro m hm
    rw [List.foldl_cons]
    exact ih (loadStep m r) (loadStep_keys_closed m r hm)

/-- Claim C10: the key set of a loaded mapping is closed under
lowercasing; and the values bound to a key and to its lowercase form can
differ, because later rows overwrite the two entries independently. -/
theorem claim_C10_keys_closed_under_lower :
    (∀ (rows : List MapRow) (k : String),
        k ∈ dictKeys (load_merchant_mapping rows) →
        pyLower k ∈ dictKeys (load_merchant_mapping rows)) ∧
    dictGet? (load_merchant_mapping caseCollideRowsSample) "Starbucks" ≠
      dictGet? (load_merchant_mapping caseCollideRowsSample) (pyLower "Starbucks") := by
  constructor
  · intro rows k hk
    exact load_keys_closed rows [] (by intro k hk; simp [dictKeys] at hk) k hk
  · decide

/-- Witness for C10: in the loaded spec example, the key `"Starbucks"`
is present and its lowercase form `"starbucks"` is present too. -/
theorem claim_C10_witness :
    "Starbucks" ∈ dictKeys (load_merchant_mapping mappingRowsSample) ∧
    pyLower "Starbucks" ∈ dictKeys (load_merchant_mapping mappingRowsSample) := by
  refine ⟨by decide, ?_⟩
  exact claim_C10_keys_closed_under_lower.1 mappingRowsSample "Starbucks" (by decide)

/-! ## Theorems: `update_csv_categories` (claims C3, C5, C6) -/

/-- Claim C3: on a row whose trimmed category is the sentinel
"Uncategorized" and whose trimmed description is non-empty, the code's
per-row update agrees with the spec's resolution order (exact key, then
lowercased key, then first prefix match in mapping iteration order; first
match wins): on a match the category field is overwritten with the mapped
category and the row is flagged as updated (the per-file counter
increments by one such flag per row). -/
theorem claim_C3_resolution_order (mapping : List (String × String)) (row : Row)
    (hcat : pyStrip (rowGet row "category") = "Uncategorized")
    (hdesc : pyStrip (rowGet row "description") ≠ "") :
    resolveRow mapping row =
      match resolveCategorySpec mapping (pyStrip (rowGet row "description")) with
      | some c => (dictSet row "category" c, true)
      | none => (row, false) := by
  simp only [resolveRow, resolveCategorySpec]
  rw [if_pos ⟨hcat, hdesc⟩]
  cases h1 : dictGet? mapping (pyStrip (rowGet row "description")) with
  | some c => rfl
  | none =>
    cases h2 : dictGet? mapping (pyLower (pyStrip (rowGet row "description"))) with
    | some c => rfl
    | none =>
      cases h3 : mapping.find?
          (fun p => (pyLower p.1).data.isPrefixOf
            (pyLower (pyStrip (rowGet row "description"))).data) with
      | some p => rfl
      | none => rfl

/-- Witness for C3: the spec's example — mapping `Starbucks → Coffee`,
row `description="STARBUCKS #4821", category="Uncategorized"` — resolves
via the case-insensitive prefix scan to `Coffee` and flags the row. -/
theorem claim_C3_witness :
    pyStrip (rowGet rowUncatSample "category") = "Uncategorized" ∧
    pyStrip (rowGet rowUncatSample "description") ≠ "" ∧
    resolveRow (load_merchant_mapping mappingRowsSample) rowUncatSample =
      ([("date", "2025-08-01"), ("description", "STARBUCKS #4821"),
        ("category", "Coffee")], true) := by
  refine ⟨by decide, by decide, ?_⟩
  have h := claim_C3_resolution_order (load_merchant_mapping mappingRowsSample)
    rowUncatSample (by decide) (by decide)
  rw [h]
  decide

theorem any_category_of_strip (row : Row)
    (h : pyStrip (rowGet row "category") = "Uncategorized") :
    row.any (fun p => p.1 = "category") = true := by
  cases hany : row.any (fun p => p.1 = "category") with
  | true => rfl
  | false =>
    have hget : dictGet? row "category" = none :=
      dictGet?_eq_none_of_not_any _ _ hany
    have hempty : rowGet row "category" = "" := by unfold rowGet; rw [hget]; rfl
    rw [hempty] at h
    exact absurd h (by decide)

/-- Claim C5: a row whose trimmed category differs from the sentinel
"Uncategorized", or whose trimmed description is empty, is left
completely unchanged; and in every case the update touches at most the
`category` field: the field-name sequence is preserved and every other
field keeps its value. -/
theorem claim_C5_frame (mapping : List (String × String)) (row : Row) :
    (¬(pyStrip (rowGet row "category") = "Uncategorized" ∧
        pyStrip (rowGet row "description") ≠ "") →
      resolveRow mapping row = (row, false)) ∧
    dictKeys (resolveRow mapping row).1 = dictKeys row ∧
    (∀ k, k ≠ "category" → rowGet (resolveRow mapping row).1 k = rowGet row k) := by
  by_cases helig : pyStrip (rowGet row "category") = "Uncategorized" ∧
      pyStrip (rowGet row "description") ≠ ""
  · have hpres := any_category_of_strip row helig.1
    have hcases : (∃ c, (resolveRow mapping row).1 = dictSet row "category" c) ∨
        (resolveRow mapping row).1 = row := by
      simp only [resolveRow]
      rw [if_pos helig]
      cases h1 : dictGet? mapping (pyStrip (rowGet row "description")) with
      | some c => exact Or.inl ⟨c, rfl⟩
      | none =>
        cases h2 : dictGet? mapping (pyLower (pyStrip (rowGet row "description"))) with
        | some c => exact Or.inl ⟨c, rfl⟩
        | none =>
          cases h3 : mapping.find?
              (fun p => (pyLower p.1).data.isPrefixOf
                (pyLower (pyStrip (rowGet row "description"))).data) with
          | some p => exact Or.inl ⟨p.2, rfl⟩
          | none => exact Or.inr rfl
    refine ⟨fun h => absurd helig h, ?_, ?_⟩
    · rcases hcases with ⟨c, hc⟩ | hc
      · rw [hc]; exact dictKeys_set_of_any row "category" c hpres
      · rw [hc]
    · intro k hk
      rcases hcases with ⟨c, hc⟩ | hc
      · rw [hc]; unfold rowGet; rw [dictGet?_set_ne row "category" c k hk]
      · rw [hc]
  · have hskip : resolveRow mapping row = (row, false) := by
      simp only [resolveRow]; rw [if_neg helig]
    exact ⟨fun _ => hskip, by rw [hskip], fun k _ => by rw [hskip]⟩

/-- Witness for C5: the already-categorized row of the spec's example is
left unchanged although its description matches the mapping, and the
updated row of the example keeps its `date` field. -/
theorem claim_C5_witness :
    (¬(pyStrip (rowGet rowDoneSample "category") = "Uncategorized" ∧
        pyStrip (rowGet rowDoneSample "description") ≠ "")) ∧
    resolveRow (load_merchant_mapping mappingRowsSample) rowDoneSample =
      (rowDoneSample, false) ∧
    rowGet (resolveRow (load_merchant_mapping mappingRowsSample) rowUncatSample).1
        "date" = rowGet rowUncatSample "date" := by
  have h := claim_C5_frame (load_merchant_mapping mappingRowsSample) rowDoneSample
  have h2 := claim_C5_frame (load_merchant_mapping mappingRowsSample) rowUncatSample
  have hne : ¬(pyStrip (rowGet rowDoneSample "category") = "Uncategorized" ∧
      pyStrip (rowGet rowDoneSample "description") ≠ "") := by decide
  exact ⟨hne, h.1 hne, h2.2.2 "date" (by decide)⟩

theorem length_updateRows (mapping : List (String × String)) :
    ∀ rows : List Row, (updateRows mapping rows).1.length = rows.length := by
  intro rows
  induction rows with
  | nil => rfl
  | cons row rest ih => simp [updateRows, ih]

/-- Claim C6: the updater rewrites the file exactly when the updated-row
count is positive; on a rewrite the new content is the whole row set
(as many rows as were read, updated or not) serialized behind the header
in the original column order with every field quoted, and on zero updates
the file content is byte-for-byte untouched; the count is returned in
both cases. -/
theorem claim_C6_rewrite_iff (fileText : List Char) (fieldnames : List String)
    (rows : List Row) (mapping : List (String × String)) :
    ((update_csv_categories fileText fieldnames rows mapping).wrote = true ↔
      0 < (update_csv_categories fileText fieldnames rows mapping).count) ∧
    (update_csv_categories fileText fieldnames rows mapping).count =
      (updateRows mapping rows).2 ∧
    ((update_csv_categories fileText fieldnames rows mapping).wrote = false →
      (update_csv_categories fileText fieldnames rows mapping).fileText = fileText) ∧
    ((update_csv_categories fileText fieldnames rows mapping).wrote = true →
      (update_csv_categories fileText fieldnames rows mapping).fileText =
        encFileAll ((fieldnames.map String.data) ::
          (updateRows mapping rows).1.map (rowFields fieldnames)) ∧
      (updateRows mapping rows).1.length = rows.length) := by
  unfold update_csv_categories
  by_cases h : 0 < (updateRows mapping rows).2
  · simp [h, length_updateRows]
  · simp [h]

/-- Witness for C6: a file whose single row is already categorized is
not rewritten — its bytes survive unchanged and the count 0 is
returned. -/
theorem claim_C6_witness :
    (update_csv_categories ("original-bytes".data) ["date", "description", "category"]
        [rowDoneSample] (load_merchant_mapping mappingRowsSample)).wrote = false ∧
    (update_csv_categories ("original-bytes".data) ["date", "description", "category"]
        [rowDoneSample] (load_merchant_mapping mappingRowsSample)).fileText =
      "original-bytes".data ∧
    (update_csv_categories ("original-bytes".data) ["date", "description", "category"]
        [rowDoneSample] (load_merchant_mapping mappingRowsSample)).count = 0 := by
  have h := claim_C6_rewrite_iff ("original-bytes".data)
    ["date", "description", "category"] [rowDoneSample]
    (load_merchant_mapping mappingRowsSample)
  have hw : (update_csv_categories ("original-bytes".data)
      ["date", "description", "category"] [rowDoneSample]
      (load_merchant_mapping mappingRowsSample)).wrote = false := by decide
  exact ⟨hw, h.2.2.1 hw, by decide⟩

/-! ## Theorems: CSV round trip (claim C8) -/

theorem parseQuotedBody_closing (rest : List Char) (h : rest.head? ≠ some '"') :
    parseQuotedBody ('"' :: rest) = ([], rest) := by
  simp only [parseQuotedBody]
  simp [h]

theorem parseQuotedBody_doubled (l : List Char) :
    parseQuotedBody ('"' :: '"' :: l) =
      ('"' :: (parseQuotedBody l).1, (parseQuotedBody l).2) := by
  simp [parseQuotedBody]

theorem parseQuotedBody_other (c : Char) (l : List Char) (hc : ¬(c = '"')) :
    parseQuotedBody (c :: l) = (c :: (parseQuotedBody l).1, (parseQuotedBody l).2) := by
  simp [parseQuotedBody, hc]

theorem parseQuotedBody_inv (f : List Char) :
    ∀ rest : List Char, rest.head? ≠ some '"' →
      parseQuotedBody (doubleQuotes f ++ '"' :: rest) = (f, rest) := by
  induction f with
  | nil =>
    intro rest h
    rw [show doubleQuotes [] ++ '"' :: rest = '"' :: rest from rfl]
    exact parseQuotedBody_closing rest h
  | cons c f ih =>
    intro rest h
    by_cases hc : c = '"'
    · subst hc
      have hd : doubleQuotes ('"' :: f) ++ '"' :: rest =
          '"' :: '"' :: (doubleQuotes f ++ '"' :: rest) := by
        simp [doubleQuotes]
      rw [hd, parseQuotedBody_doubled, ih rest h]
    · have hd : doubleQuotes (c :: f) ++ '"' :: rest =
          c :: (doubleQuotes f ++ '"' :: rest) := by
        simp [doubleQuotes, hc]
      rw [hd, parseQuotedBody_other c _ hc, ih rest h]

theorem parseUnquoted_inv (f : List Char) :
    ∀ rest : List Char, needsQuote f = false →
      (rest.head? = none ∨ rest.head? = some ',' ∨ rest.head? = some '\r' ∨
        rest.head? = some '\n') →
      parseUnquoted (f ++ rest) = (f, rest) := by
  induction f with
  | nil =>
    intro rest _ hsep
    cases rest with
    | nil => rfl
    | cons c r =>
      have hc : (c = ',' || c = '\r' || c = '\n') = true := by
        rcases hsep with h | h | h | h <;> simp at h
        · rw [h]; simp
        · rw [h]; simp
        · rw [h]; simp
      simp [parseUnquoted, hc]
  | cons c f ih =>
    intro rest hq hsep
    have hcq : ¬(c = ',' ∨ c = '"' ∨ c = '\r' ∨ c = '\n') := by
      intro hcc
      have : needsQuote (c :: f) = true := by
        unfold needsQuote
        rw [List.any_cons]
        rcases hcc with h | h | h | h <;> simp [h]
      rw [this] at hq
      exact absurd hq (by decide)
    have hq2 : needsQuote f = false := by
      unfold needsQuote at hq ⊢
      rw [List.any_cons] at hq
      cases hf : f.any (fun x => x = ',' || x = '"' || x = '\r' || x = '\n') with
      | false => rfl
      | true => rw [hf] at hq; simp at hq
    have hc1 : ¬(c = ',') := fun h => hcq (Or.inl h)
    have hc3 : ¬(c = '\r') := fun h => hcq (Or.inr (Or.inr (Or.inl h)))
    have hc4 : ¬(c = '\n') := fun h => hcq (Or.inr (Or.inr (Or.inr h)))
    simp [parseUnquoted, hc1, hc3, hc4, ih rest hq2 hsep]

theorem parseField_inv (f : List Char) (rest : List Char)
    (hsep : rest.head? = none ∨ rest.head? = some ',' ∨ rest.head? = some '\r' ∨
      rest.head? = some '\n') :
    parseField (encField f ++ rest) = (f, rest) := by
  have hrq : rest.head? ≠ some '"' := by
    rcases hsep with h | h | h | h <;> rw [h] <;> decide
  by_cases hq : needsQuote f = true
  · have henc : encField f ++ rest = '"' :: (doubleQuotes f ++ '"' :: rest) := by
      unfold encField; rw [if_pos hq]; simp
    rw [henc]
    have hstep : parseField ('"' :: (doubleQuotes f ++ '"' :: rest)) =
        parseQuotedBody (doubleQuotes f ++ '"' :: rest) := by
      simp [parseField]
    rw [hstep]
    exact parseQuotedBody_inv f rest hrq
  · have hqf : needsQuote f = false := eq_false_of_ne_true hq
    have henc : encField f = f := by unfold encField; rw [if_neg hq]
    rw [henc]
    have hne : (f ++ rest).head? ≠ some '"' := by
      cases f with
      | nil => rw [List.nil_append]; exact hrq
      | cons c f' =>
        have hc : ¬(c = '"') := by
          intro hh
          have : needsQuote (c :: f') = true := by
            unfold needsQuote
            rw [List.any_cons]
            simp [hh]
          rw [this] at hqf
          exact absurd hqf (by decide)
        simp [hc]
    unfold parseField
    rw [if_neg hne]
    exact parseUnquoted_inv f rest hqf hsep

theorem joinComma_cons (a : List Char) (l : List (List Char)) (h : l ≠ []) :
    joinComma (a :: l) = a ++ ',' :: joinComma l := by
  cases l with
  | nil => exact absurd rfl h
  | cons b m => rfl

theorem parseRecordAux_inv (f : List Char) (fs : List (List Char)) :
    ∀ (fuel : Nat) (rest : List Char), fs.length < fuel →
      parseRecordAux fuel (joinComma ((f :: fs).map encField) ++ '\r' :: '\n' :: rest) =
        (f :: fs, rest) := by
  induction fs generalizing f with
  | nil =>
    intro fuel rest hfuel
    cases fuel with
    | zero => simp at hfuel
    | succ fuel =>
      have hp := parseField_inv f ('\r' :: '\n' :: rest)
        (Or.inr (Or.inr (Or.inl rfl)))
      show parseRecordAux (fuel + 1) (encField f ++ '\r' :: '\n' :: rest) = ([f], rest)
      simp only [parseRecordAux]
      rw [hp]
      rfl
  | cons f2 fs2 ih =>
    intro fuel rest hfuel
    cases fuel with
    | zero => simp at hfuel
    | succ fuel =>
      have hj : joinComma ((f :: f2 :: fs2).map encField) ++ '\r' :: '\n' :: rest =
          encField f ++ ',' ::
            (joinComma ((f2 :: fs2).map encField) ++ '\r' :: '\n' :: rest) := by
        rw [List.map_cons, joinComma_cons _ _ (by simp)]
        simp
      rw [hj]
      have hp := parseField_inv f
        (',' :: (joinComma ((f2 :: fs2).map encField) ++ '\r' :: '\n' :: rest))
        (Or.inr (Or.inl rfl))
      simp only [parseRecordAux]
      rw [hp]
      have hrec := ih f2 fuel rest (Nat.lt_of_succ_lt_succ hfuel)
      show (f :: (parseRecordAux fuel
          (joinComma ((f2 :: fs2).map encField) ++ '\r' :: '\n' :: rest)).1,
        (parseRecordAux fuel
          (joinComma ((f2 :: fs2).map encField) ++ '\r' :: '\n' :: rest)).2) =
        (f :: f2 :: fs2, rest)
      rw [hrec]

theorem length_joinComma (f : List Char) (fs : List (List Char)) :
    fs.length ≤ (joinComma ((f :: fs).map encField)).length := by
  induction fs generalizing f with
  | nil => simp
  | cons f2 fs2 ih =>
    rw [List.map_cons, joinComma_cons _ _ (by simp)]
    have h := ih f2
    simp only [List.length_append, List.length_cons]
    omega

theorem length_encRow (fs : List (List Char)) :
    (encRow fs).length = (joinComma (fs.map encField)).length + 2 := by
  unfold encRow
  simp

theorem length_encFile_ge (rows : List (List (List Char))) :
    rows.length ≤ (encFile rows).length := by
  induction rows with
  | nil => simp [encFile]
  | cons r rest ih =>
    have h : encFile (r :: rest) = encRow r ++ encFile rest := by
      simp [encFile]
    rw [h]
    simp only [List.length_append, List.length_cons, length_encRow]
    omega

theorem parseFileAux_inv (rows : List (List (List Char))) :
    ∀ fuel : Nat, rows.length ≤ fuel → (∀ r ∈ rows, r ≠ []) →
      parseFileAux fuel (encFile rows) = rows := by
  induction rows with
  | nil =>
    intro fuel _ _
    cases fuel with
    | zero => rfl
    | succ fuel => simp [parseFileAux, encFile]
  | cons r rest ih =>
    intro fuel hfuel hne
    cases fuel with
    | zero => simp at hfuel
    | succ fuel =>
      obtain ⟨f, fs, rfl⟩ : ∃ f fs, r = f :: fs := by
        cases r with
        | nil => exact absurd rfl (hne [] (List.mem_cons_self _ _))
        | cons f fs => exact ⟨f, fs, rfl⟩
      have hs : encFile ((f :: fs) :: rest) =
          joinComma ((f :: fs).map encField) ++ '\r' :: '\n' :: encFile rest := by
        simp [encFile, encRow]
      rw [hs]
      have hsne : (joinComma ((f :: fs).map encField) ++
          '\r' :: '\n' :: encFile rest).isEmpty = false := by
        cases hj : joinComma ((f :: fs).map encField) with
        | nil => rfl
        | cons c l => rfl
      simp only [parseFileAux, hsne, Bool.false_eq_true, if_false]
      have hfl : fs.length <
          (joinComma ((f :: fs).map encField) ++
            '\r' :: '\n' :: encFile rest).length + 1 := by
        have h1 := length_joinComma f fs
        simp only [List.length_append, List.length_cons]
        omega
      rw [parseRecordAux_inv f fs _ (encFile rest) hfl]
      rw [ih fuel (by simpa using hfuel) (fun r hr => hne r (List.mem_cons_of_mem _ hr))]

theorem parseFile_encFile (rows : List (List (List Char)))
    (hne : ∀ r ∈ rows, r ≠ []) : parseFile (encFile rows) = rows := by
  unfold parseFile
  refine parseFileAux_inv rows _ ?_ hne
  have := length_encFile_ge rows
  omega

/-- Claim C8 (amended to non-empty sequences): exporting a non-empty
sequence of N transactions writes the fixed six-column header
`date, transaction_type, description, amount, balance, currency`
followed by one row per transaction in sequence order, and parsing the
output back (the `csv.reader` scan, quoting included) yields exactly
those N rows — the same field values, modulo number formatting — after
the header.  Exporting an empty sequence writes nothing (see the
counterexample). -/
theorem claim_C8_export_roundtrip (transactions : List Transaction)
    (h : transactions ≠ []) :
    export_to_csv transactions =
      some (encFile (headerFields :: transactions.map txFields)) ∧
    parseFile (encFile (headerFields :: transactions.map txFields)) =
      headerFields :: transactions.map txFields ∧
    (parseFile (encFile (headerFields :: transactions.map txFields))).length =
      transactions.length + 1 := by
  have hne : ∀ r ∈ headerFields :: transactions.map txFields, r ≠ [] := by
    intro r hr
    rcases List.mem_cons.mp hr with rfl | hr
    · simp [headerFields]
    · obtain ⟨t, -, rfl⟩ := List.mem_map.mp hr
      simp [txFields]
  have hrt := parseFile_encFile _ hne
  refine ⟨?_, hrt, by rw [hrt]; simp⟩
  unfold export_to_csv
  rw [if_neg (by simpa [List.isEmpty_iff] using h)]

/-- Counterexample for C8 as stated for every sequence: exporting the
empty sequence writes no header and no rows at all (`export_to_csv`
returns before touching the file). -/
theorem claim_C8_counterexample : export_to_csv [] = none := rfl

/-- Witness for C8: a one-transaction export round-trips. -/
theorem claim_C8_witness :
    ([txSample] ≠ ([] : List Transaction)) ∧
    export_to_csv [txSample] =
      some (encFile (headerFields :: [txSample].map txFields)) ∧
    parseFile (encFile (headerFields :: [txSample].map txFields)) =
      headerFields :: [txSample].map txFields := by
  have h := claim_C8_export_roundtrip [txSample] (by simp)
  exact ⟨by simp, h.1, h.2.1⟩
